import Mathlib

/-!
Verification of the mongofluxd change-data-capture pipeline
(src/mongofluxd.go) against its natural-language specification.

The Go source is shallowly embedded below.  Pure functions become Lean
functions; the mutable `InfluxCtx` receiver becomes explicit state
passing (each method returns the updated context together with the Go
error value, modelled as `Option String`).  Go maps are modelled as
association lists with insert-overwrite semantics (`mapInsert` /
`mapLookup`).  External collaborators (the gtm reader, the InfluxDB
client, the MongoDB checkpoint collection) are modelled from the
contracts stated in the specification; every such definition carries a
comment saying so.  All other definitions are translated directly from
the Go source.
-/

namespace MFlux

/-- Association list lookup: the Go map read `m[k]`.  Keys are unique in a
Go map; `mapInsert` keeps that invariant, so taking the first match is
faithful. -/
def mapLookup {α : Type} : List (String × α) → String → Option α
  | [], _ => none
  | (k', v) :: rest, k => if k' == k then some v else mapLookup rest k

/-- Association list insert-overwrite: the Go map write `m[k] = v`. -/
def mapInsert {α : Type} (m : List (String × α)) (k : String) (v : α) :
    List (String × α) :=
  (k, v) :: m.filter (fun p => !(p.1 == k))

/-- Go `time.Time`, restricted to what the source consumes: the instant
(unix seconds and nanoseconds) and whether the location is UTC.
`time.Unix` yields a local-location value; `.UTC()` only changes the
location flag. -/
structure GoTime where
  sec : Int
  nsec : Int
  utc : Bool
deriving DecidableEq, Repr

/-- Go `time.Unix(sec, nsec)`: local location. -/
def timeUnix (sec nsec : Int) : GoTime := ⟨sec, nsec, false⟩

/-- Go `t.UTC()`. -/
def GoTime.UTC (t : GoTime) : GoTime := { t with utc := true }

/-- The zero value of `time.Time` (January 1, year 1, UTC). -/
def GoTime.zero : GoTime := ⟨-62135596800, 0, true⟩

/-- Arithmetic right shift by 32 of an int64, as Go `ts >> 32`: floor
division by 2^32. -/
def shr32 (x : Int) : Int := Int.fdiv x 4294967296

/-- Source: `TimestampTime` — `time.Unix(int64(ts>>32), 0).UTC()`.  A
`bson.MongoTimestamp` is an int64, modelled as `Int`. -/
def TimestampTime (ts : Int) : GoTime := (timeUnix (shr32 ts) 0).UTC

/-- The BSON value space the source dispatches on (spec section 3): the four
projectable scalars, wall-clock time, replication timestamp, nested
document (`gtm.OpLogEntry`), array, null, other. -/
inductive Value where
  | str (s : String)
  | int (i : Int)
  | float (bits : Nat)
  | bool (b : Bool)
  | time (t : GoTime)
  | mts (ts : Int)
  | doc (d : List (String × Value))
  | arr (l : List Value)
  | null
  | other

/-- Source: `istagtype` — true only for a Go `string`. -/
def istagtype : Value → Bool
  | .str _ => true
  | _ => false

/-- Source: `isfieldtype` — true for string, int64, float64, bool. -/
def isfieldtype : Value → Bool
  | .str _ => true
  | .int _ => true
  | .float _ => true
  | .bool _ => true
  | _ => false

/-- Source: `flatmap` — recursively flattens nested documents into
dotted-key scalar leaves, keeping only `isfieldtype` values.  The Go
version iterates a map and writes into a map; the list model iterates in
list order and keeps the emission order. -/
def flatmap (pre : String) (m : List (String × Value)) : List (String × Value) :=
  match m with
  | [] => []
  | (k, Value.doc child) :: rest =>
      ((flatmap "" child).map fun p => (pre ++ k ++ "." ++ p.1, p.2))
        ++ flatmap pre rest
  | (k, v) :: rest =>
      (if isfieldtype v then [(pre ++ k, v)] else []) ++ flatmap pre rest

/-- Dot-joined key path: `k1 ++ "." ++ k2 ++ ...`. -/
def dotJoin : List String → String
  | [] => ""
  | [k] => k
  | k :: (k2 :: p) => k ++ "." ++ dotJoin (k2 :: p)

/-- A leaf of a document tree: a path of keys ending in a non-document
value.  Duplicate keys (impossible in a Go map, but possible in the list
model) are handled by plain membership. -/
inductive Leaf : List (String × Value) → List String → Value → Prop where
  | here {m : List (String × Value)} {k : String} {v : Value} :
      (k, v) ∈ m → (∀ d, v ≠ Value.doc d) → Leaf m [k] v
  | nest {m : List (String × Value)} {k : String} {d : List (String × Value)}
      {p : List String} {v : Value} :
      (k, Value.doc d) ∈ m → Leaf d p v → Leaf m (k :: p) v

/-- Source: the constant `Name = "mongofluxd"` — the reserved database of
the pipeline. -/
def Name : String := "mongofluxd"

/-- Operation kinds of a change event (spec section 3). -/
inductive OpKind where
  | insert
  | update
  | delete
  | command
  | unknown
deriving DecidableEq, Repr

/-- Modelled from the spec: the attributes of a `gtm.Op` the source
consumes — namespace (database + collection), operation kind, replication
timestamp, document data.  `gtm` is an external collaborator (spec
section 6); `Namespace` is `database ++ "." ++ collection`. -/
structure GtmOp where
  db : String
  coll : String
  kind : OpKind
  Timestamp : Int
  Data : List (String × Value)

/-- Modelled from the spec: `op.GetDatabase()`. -/
def GtmOp.GetDatabase (o : GtmOp) : String := o.db

/-- Modelled from the spec: `op.GetCollection()`. -/
def GtmOp.GetCollection (o : GtmOp) : String := o.coll

/-- Modelled from the spec: `op.Namespace` is `db.collection`. -/
def GtmOp.Namespace (o : GtmOp) : String := o.db ++ "." ++ o.coll

/-- Modelled from the spec: `op.IsInsert()`. -/
def GtmOp.IsInsert (o : GtmOp) : Bool := o.kind == OpKind.insert

/-- Modelled from the spec: `op.IsUpdate()`. -/
def GtmOp.IsUpdate (o : GtmOp) : Bool := o.kind == OpKind.update

/-- No newline character: Go regexp `.` does not match a newline. -/
def noNewline (l : List Char) : Bool := l.all (fun c => !(c == '\n'))

/-- Match of the Go regexp `system\..+$` starting at this position: the
literal `system.` followed by at least one non-newline character running
to the end of the text. -/
def sysHere (l : List Char) : Bool :=
  List.isPrefixOf ("system.".data) l
    && (let b := l.drop 7
        !b.isEmpty && noNewline b)

/-- Unanchored match of `system\..+$`: some position matches. -/
def systemsMatchL : List Char → Bool
  | [] => false
  | c :: cs => sysHere (c :: cs) || systemsMatchL cs

/-- Source: `systemsRegex.MatchString` for `system\..+$`. -/
def systemsMatch (s : String) : Bool := systemsMatchL s.data

/-- Source: `chunksRegex.MatchString` for `\.chunks$` — the collection
name ends with `.chunks`. -/
def chunksMatch (s : String) : Bool := List.isSuffixOf (".chunks".data) s.data

/-- Source: `IsInsertOrUpdate`. -/
def IsInsertOrUpdate (op : GtmOp) : Bool := op.IsInsert || op.IsUpdate

/-- Source: `NotMongoFlux` — the database is not the reserved one. -/
def NotMongoFlux (op : GtmOp) : Bool := !(op.GetDatabase == Name)

/-- Source: `NotChunks`. -/
def NotChunks (op : GtmOp) : Bool := !(chunksMatch op.GetCollection)

/-- Source: `NotSystem`. -/
def NotSystem (op : GtmOp) : Bool := !(systemsMatch op.GetCollection)

/-- Source: `FilterWithRegex` — the compiled regular expression is an
external matcher, abstracted as a predicate on the namespace string. -/
def FilterWithRegex (m : String → Bool) (op : GtmOp) : Bool := m op.Namespace

/-- Source: `FilterInverseWithRegex`. -/
def FilterInverseWithRegex (m : String → Bool) (op : GtmOp) : Bool :=
  !(m op.Namespace)

/-- Modelled from the spec: `gtm.ChainOpFilters` composes predicates by
short-circuit AND (spec section 4.4); the gtm library is external. -/
def ChainOpFilters (filters : List (GtmOp → Bool)) (op : GtmOp) : Bool :=
  filters.all (fun f => f op)

/-- Source: the filter chain built in `main` — the four fixed predicates,
then the optional namespace include and exclude matchers (`none` models
an empty regex option). -/
def buildFilterChain (inc exc : Option (String → Bool)) : List (GtmOp → Bool) :=
  ([NotMongoFlux, IsInsertOrUpdate, NotSystem, NotChunks]
    ++ (match inc with
        | some f => [FilterWithRegex f]
        | none => [])
    ++ (match exc with
        | some f => [FilterInverseWithRegex f]
        | none => []))

/-- The composed filter handed to `gtm.Start`. -/
def mainFilter (inc exc : Option (String → Bool)) (op : GtmOp) : Bool :=
  ChainOpFilters (buildFilterChain inc exc) op

/-- Source: `measureSettings` — one `[[measurement]]` config table. -/
structure measureSettings where
  Namespace : String
  Timefield : String
  Retention : String
  Precision : String
  Measure : String
  Tags : List String
  Fields : List String

/-- Source: `configOptions`, trimmed to the fields the embedded functions
read.  `InfluxBufferSize` is a flag with positive defaults, kept as a
natural number. -/
structure configOptions where
  Resume : Bool
  ResumeName : String
  ResumeFromTimestamp : Int
  Replay : Bool
  InfluxAutoCreateDB : Bool
  InfluxBufferSize : Nat
  Verbose : Bool

/-- Source: `InfluxMeasure`.  The Go `map[string]bool` sets built from the
tag and field lists are modelled by the lists themselves with `contains`
lookup; a list is empty exactly when the set built from it is. -/
structure InfluxMeasure where
  ns : String
  timefield : String
  retention : String
  precision : String
  measure : String
  tags : List String
  fields : List String

/-- The measure a single loop iteration of `setupMeasurements` builds from
one `measureSettings`, precision defaulted to `s` when empty. -/
def mkMeasure (ms : measureSettings) : InfluxMeasure :=
  { ns := ms.Namespace
    timefield := ms.Timefield
    retention := ms.Retention
    precision := if ms.Precision == "" then "s" else ms.Precision
    measure := ms.Measure
    tags := ms.Tags
    fields := ms.Fields }

/-- The loop of `setupMeasurements`: build each measure, reject an empty
field set, register under the namespace (a later spec overwrites an
earlier one with the same namespace, as a Go map write does). -/
def setupLoop : List measureSettings → List (String × InfluxMeasure) →
    Except String (List (String × InfluxMeasure))
  | [], acc => Except.ok acc
  | ms :: rest, acc =>
      let im := mkMeasure ms
      if im.fields.length == 0 then
        Except.error "at least one field is required per measurement"
      else setupLoop rest (mapInsert acc ms.Namespace im)

/-- Source: `setupMeasurements` — rejects an empty measurement list, then
runs the registration loop.  The Go method fills `ctx.measures`; the
model returns the filled map. -/
def setupMeasurements (mss : List measureSettings) :
    Except String (List (String × InfluxMeasure)) :=
  if mss.length > 0 then setupLoop mss []
  else Except.error "at least one measurement is required"

/-- An InfluxDB point (spec section 3). -/
structure Point where
  name : String
  tags : List (String × String)
  fields : List (String × Value)
  time : GoTime

/-- A batch of points sharing database, retention policy and precision. -/
structure BatchPoints where
  database : String
  retention : String
  precision : String
  points : List Point

/-- Modelled from the spec: `client.NewPoint` of the external InfluxDB
client rejects a point with no fields (spec sections 4.5 and 8: `fields`
non-empty; an empty-field point is rejected at construction). -/
def NewPoint (name : String) (tags : List (String × String))
    (fields : List (String × Value)) (t : GoTime) : Except String Point :=
  if fields.length == 0 then Except.error "Point without fields is unsupported"
  else Except.ok ⟨name, tags, fields, t⟩

/-- The precision strings of spec section 3. -/
def validPrecision (p : String) : Bool :=
  p == "ns" || p == "us" || p == "ms" || p == "s" || p == "m" || p == "h"

/-- Modelled from the spec: `client.NewBatchPoints` of the external
InfluxDB client accepts the precisions of spec section 3 (or an empty
one) and yields an empty batch. -/
def NewBatchPoints (database retention precision : String) :
    Except String BatchPoints :=
  if precision == "" || validPrecision precision then
    Except.ok ⟨database, retention, precision, []⟩
  else Except.error "time: invalid precision"

/-- One record upserted into the checkpoint collection: the database and
collection it is stored in, the record id (the resume name) and the
timestamp. -/
structure SavedRec where
  db : String
  coll : String
  id : String
  ts : Int
deriving DecidableEq, Repr

/-- Source: `InfluxCtx`.  The external InfluxDB client `c` and the MongoDB
session `mongo` are modelled by outcome oracles (`sinkErr`, `queryErr`,
`saveErr`) plus logs of the calls made (`sinkWrites`, `saved`), so every
externally visible action of a worker is recorded in the state. -/
structure InfluxCtx where
  m : List (String × BatchPoints)
  dbs : List String
  measures : List (String × InfluxMeasure)
  config : configOptions
  lastTs : Int
  sinkErr : String → Option String
  queryErr : String → Option String
  saveErr : Option String
  sinkWrites : List String
  saved : List SavedRec

/-- Source: `SaveTimestamp` — upserts the record with id `resumeName` into
collection `resume` of database `Name`.  The model appends the attempted
upsert to the log and reports the session outcome. -/
def SaveTimestamp (ctx : InfluxCtx) (ts : Int) (resumeName : String) :
    InfluxCtx × Option String :=
  ({ ctx with saved := ctx.saved ++ [⟨Name, "resume", resumeName, ts⟩] },
    ctx.saveErr)

/-- Source: method `saveTs` — save the tracked timestamp when resume is on
and the timestamp is non-zero, then clear it (the clear happens even when
the upsert reports an error, as in the Go code). -/
def InfluxCtx.saveTs (ctx : InfluxCtx) : InfluxCtx × Option String :=
  if ctx.config.Resume && !(ctx.lastTs == 0) then
    let r := SaveTimestamp ctx ctx.lastTs ctx.config.ResumeName
    ({ r.1 with lastTs := 0 }, r.2)
  else (ctx, none)

/-- Source: method `createDatabase` — when auto-create is enabled and the
database has not yet been ensured, issue the CREATE DATABASE query and
record the database on success. -/
def InfluxCtx.createDatabase (ctx : InfluxCtx) (db : String) :
    InfluxCtx × Option String :=
  if ctx.config.InfluxAutoCreateDB then
    if ctx.dbs.contains db then (ctx, none)
    else
      match ctx.queryErr db with
      | some e => (ctx, some e)
      | none => ({ ctx with dbs := db :: ctx.dbs }, none)
  else (ctx, none)

/-- Source: method `setupDatabase` — on first use of a namespace build an
empty batch from the registered retention and precision, register it,
then ensure the target database.  The Go code dereferences
`ctx.measures[ns]` without a check and would panic on a missing measure;
that unreachable branch (the only caller checks first) is modelled as an
error. -/
def InfluxCtx.setupDatabase (ctx : InfluxCtx) (op : GtmOp) :
    InfluxCtx × Option String :=
  let db := op.GetDatabase
  let ns := op.Namespace
  match mapLookup ctx.m ns with
  | some _ => (ctx, none)
  | none =>
      match mapLookup ctx.measures ns with
      | none => (ctx, some "panic: measure not registered")
      | some meas =>
          match NewBatchPoints db meas.retention meas.precision with
          | Except.error e => (ctx, some e)
          | Except.ok bp =>
              let c1 := { ctx with m := mapInsert ctx.m ns bp }
              c1.createDatabase db

/-- The write loop of `writeBatch`: write each open batch in map order,
logging each attempt, stopping at the first error.  The verbose point
counter of the Go code only feeds a log line and is omitted. -/
def writeLoop (ctx : InfluxCtx) : List (String × BatchPoints) →
    InfluxCtx × Option String
  | [] => (ctx, none)
  | (ns, _) :: rest =>
      let c1 := { ctx with sinkWrites := ctx.sinkWrites ++ [ns] }
      match c1.sinkErr ns with
      | some e => (c1, some e)
      | none => writeLoop c1 rest

/-- The error of the write loop as a pure function of the sink outcomes
and the batch list: the outcome of the first failing batch, if any. -/
def firstWriteErr (f : String → Option String) :
    List (String × BatchPoints) → Option String
  | [] => none
  | (ns, _) :: rest =>
      match f ns with
      | some e => some e
      | none => firstWriteErr f rest

/-- The namespaces the write loop attempts: everything up to and
including the first failing batch. -/
def attempted (f : String → Option String) :
    List (String × BatchPoints) → List String
  | [] => []
  | (ns, _) :: rest =>
      match f ns with
      | some _ => [ns]
      | none => ns :: attempted f rest

/-- Source: method `writeBatch` — write every open batch, stopping at the
first error; unconditionally replace the batch map with an empty one;
save the checkpoint only when no write failed. -/
def InfluxCtx.writeBatch (ctx : InfluxCtx) : InfluxCtx × Option String :=
  let r := writeLoop ctx ctx.m
  let c2 := { r.1 with m := [] }
  match r.2 with
  | some e => (c2, some e)
  | none => c2.saveTs

/-- The accumulator of the projection loop in `addPoint`: the point time,
the pending-time-field flag (Go local `timefield`), and the tag and field
maps. -/
structure ProjAcc where
  t : GoTime
  missing : Bool
  tags : List (String × String)
  fields : List (String × Value)

/-- The tag-against-field classification of one key and value, written
twice in the Go source (once in the flattened-document loop and once in
the default switch arm) and factored here: a key in the tag set keeps
string values (the `istagtype` check and cast), a key in the field set
keeps `isfieldtype` values; a type mismatch is logged and dropped in Go,
which the model simply drops; a key in neither set is ignored. -/
def classifyKV (meas : InfluxMeasure) (acc : ProjAcc) (fk : String)
    (fv : Value) : ProjAcc :=
  if meas.tags.contains fk then
    match fv with
    | Value.str s => { acc with tags := mapInsert acc.tags fk s }
    | _ => acc
  else if meas.fields.contains fk then
    if isfieldtype fv then { acc with fields := mapInsert acc.fields fk fv }
    else acc
  else acc

/-- The inner classification loop of `addPoint` over a flattened
sub-document. -/
def classifyFlat (meas : InfluxMeasure) (acc : ProjAcc)
    (flat : List (String × Value)) : ProjAcc :=
  match flat with
  | [] => acc
  | (fk, fv) :: rest => classifyFlat meas (classifyKV meas acc fk fv) rest

/-- The main projection loop of `addPoint` over the document data: skip
the key `_id`; a wall-clock or replication-timestamp value under the key
equal to the configured time field resolves the point time; a nested
document is flattened with prefix `k ++ "."` and classified; anything
else is classified directly against the tag and field sets. -/
def processData (meas : InfluxMeasure) (acc : ProjAcc) :
    List (String × Value) → ProjAcc
  | [] => acc
  | (k, v) :: rest =>
      if k == "_id" then processData meas acc rest
      else
        let acc1 :=
          match v with
          | Value.time tv =>
              if meas.timefield == k then { acc with t := tv.UTC, missing := false }
              else acc
          | Value.mts ts =>
              if meas.timefield == k then
                { acc with t := TimestampTime ts, missing := false }
              else acc
          | Value.doc child => classifyFlat meas acc (flatmap (k ++ ".") child)
          | _ => classifyKV meas acc k v
        processData meas acc1 rest

/-- The initial accumulator of the projection loop, from the locals of
`addPoint`: the Go flag `timefield := measure.timefield != ""` is the
pending flag, and `t` starts as the zero time, set to
`TimestampTime(op.Timestamp)` when no time field is configured. -/
def initAcc (meas : InfluxMeasure) (op : GtmOp) : ProjAcc :=
  ⟨if !(meas.timefield == "") then GoTime.zero
      else TimestampTime op.Timestamp,
    !(meas.timefield == ""), [], []⟩

/-- The projection step of `addPoint`, factored out of the method: resolve
the time, run the loop, fail when the configured time field was never
found, then construct the point. -/
def projectPoint (meas : InfluxMeasure) (op : GtmOp) : Except String Point :=
  let name := if !(meas.measure == "") then meas.measure else op.GetCollection
  let acc := processData meas (initAcc meas op) op.Data
  if acc.missing then
    Except.error ("time field " ++ meas.timefield ++ " not found in document")
  else NewPoint name acc.tags acc.fields acc.t

/-- Source: method `addPoint` — look up the measure (no measure registered
for the namespace means the event is ignored), ensure the batch and the
database, project the point, append it to the open batch, set the tracked
timestamp to the event timestamp, and flush when the batch reached the
configured buffer size. -/
def InfluxCtx.addPoint (ctx : InfluxCtx) (op : GtmOp) : InfluxCtx × Option String :=
  match mapLookup ctx.measures op.Namespace with
  | none => (ctx, none)
  | some meas =>
      match ctx.setupDatabase op with
      | (c1, some e) => (c1, some e)
      | (c1, none) =>
          match projectPoint meas op with
          | Except.error e => (c1, some e)
          | Except.ok pt =>
              match mapLookup c1.m op.Namespace with
              | none => (c1, some "panic: batch not registered")
              | some bp =>
                  let bp2 := { bp with points := bp.points ++ [pt] }
                  let c2 := { c1 with
                    m := mapInsert c1.m op.Namespace bp2
                    lastTs := op.Timestamp }
                  if bp2.points.length ≥ c2.config.InfluxBufferSize then
                    c2.writeBatch
                  else (c2, none)

/-- The read `collection.FindId(resumeName)` of the resume document in
database `Name`, collection `resume`, over a checkpoint store modelled as
a list of records. -/
def loadResumeTs : List SavedRec → String → Option Int
  | [], _ => none
  | r :: rest, resumeName =>
      if r.db == Name && r.coll == "resume" && r.id == resumeName then some r.ts
      else loadResumeTs rest resumeName

/-- Source: the start timestamp handed to `gtm.Start` in `main`.
`lastOpTs` abstracts `gtm.LastOpTimestamp` (the current tail of the
oplog).  When resume is on the generator starts from the tail, then
overrides with zero on replay, with the explicit resume-from timestamp,
or with the stored checkpoint when one exists; when only replay is on it
returns zero; with no generator gtm defaults to the current tail
(modelled from spec section 4.9, step 3 — the gtm library is external). -/
def startTimestamp (config : configOptions) (lastOpTs : Int)
    (store : List SavedRec) : Int :=
  if config.Resume then
    let ts := lastOpTs
    if config.Replay then 0
    else if !(config.ResumeFromTimestamp == 0) then config.ResumeFromTimestamp
    else
      match loadResumeTs store config.ResumeName with
      | some t => t
      | none => ts
  else if config.Replay then 0
  else lastOpTs

/-- The start-timestamp rule as the specification words it: zero on
replay; else the explicit resume-from value when given; else, with resume
enabled, the stored checkpoint or zero when none exists; else the current
tail.  Written from the spec sentence to compare with `startTimestamp`
above. -/
def startTimestampSpec (config : configOptions) (lastOpTs : Int)
    (store : List SavedRec) : Int :=
  if config.Replay then 0
  else if !(config.ResumeFromTimestamp == 0) then config.ResumeFromTimestamp
  else if config.Resume then
    match loadResumeTs store config.ResumeName with
    | some t => t
    | none => 0
  else lastOpTs

/-- Values recognised by the time-resolution branches of the projection
loop: wall-clock time or replication timestamp. -/
def timeTyped : Value → Bool
  | .time _ => true
  | .mts _ => true
  | _ => false

/-- The conversion the projection loop applies to a matched time value. -/
def timeConv : Value → GoTime
  | .time tv => tv.UTC
  | .mts ts => TimestampTime ts
  | _ => GoTime.zero

/-- A minimal configuration used by the concrete test contexts below. -/
def cfgBase : configOptions :=
  { Resume := false
    ResumeName := "default"
    ResumeFromTimestamp := 0
    Replay := false
    InfluxAutoCreateDB := false
    InfluxBufferSize := 1000
    Verbose := false }

/-- A minimal measurement: one field, no tags, event-time points. -/
def measBase : InfluxMeasure :=
  { ns := "db.c"
    timefield := ""
    retention := ""
    precision := "s"
    measure := ""
    tags := []
    fields := ["f"] }

/-- A one-point batch for the flush tests. -/
def bpOne : BatchPoints :=
  { database := "db"
    retention := ""
    precision := "s"
    points := [⟨"c", [], [("f", Value.int 1)], GoTime.zero⟩] }

/-- A worker context holding one open batch whose sink write fails. -/
def ctxFail : InfluxCtx :=
  { m := [("db.c", bpOne)]
    dbs := []
    measures := [("db.c", measBase)]
    config := { cfgBase with Resume := true }
    lastTs := 5
    sinkErr := fun _ => some "boom"
    queryErr := fun _ => none
    saveErr := none
    sinkWrites := []
    saved := [] }

/-- The same context with a healthy sink. -/
def ctxOkSink : InfluxCtx := { ctxFail with sinkErr := fun _ => none }

/-- A configuration with resume enabled and no other option set. -/
def cfgC3 : configOptions := { cfgBase with Resume := true }

/-- Measurement settings used by the C4 duplicate-namespace test. -/
def msA : measureSettings :=
  { Namespace := "db.c"
    Timefield := ""
    Retention := ""
    Precision := ""
    Measure := "m1"
    Tags := []
    Fields := ["f"] }

/-- A second measurement over the same namespace. -/
def msB : measureSettings := { msA with Measure := "m2" }

/-- The worker context for the add-point tests: no open batch yet, one
registered measurement, healthy externals. -/
def ctxAdd : InfluxCtx :=
  { m := []
    dbs := []
    measures := [("db.c", measBase)]
    config := cfgBase
    lastTs := 0
    sinkErr := fun _ => none
    queryErr := fun _ => none
    saveErr := none
    sinkWrites := []
    saved := [] }

/-- An event at replication timestamp 5. -/
def opT5 : GtmOp :=
  { db := "db", coll := "c", kind := OpKind.insert, Timestamp := 5,
    Data := [("f", Value.int 1)] }

/-- A later-consumed event at the smaller replication timestamp 3. -/
def opT3 : GtmOp :=
  { db := "db", coll := "c", kind := OpKind.insert, Timestamp := 3,
    Data := [("f", Value.int 2)] }

/-- An ordinary event that passes every filter. -/
def opPlain : GtmOp :=
  { db := "db", coll := "users", kind := OpKind.insert, Timestamp := 0, Data := [] }

/-- A weather measurement with one tag and one field. -/
def measW9 : InfluxMeasure :=
  { ns := "weather.city", timefield := "", retention := "", precision := "s",
    measure := "", tags := ["region"], fields := ["temp"] }

/-- A weather event carrying a tag, a field and a document id. -/
def opW9 : GtmOp :=
  { db := "weather", coll := "city", kind := OpKind.insert, Timestamp := 5,
    Data := [("region", Value.str "NA"), ("temp", Value.float 7),
      ("_id", Value.str "x")] }

/-- The point the projector produces for `opW9`. -/
def ptW9 : Point :=
  ⟨"city", [("region", "NA")], [("temp", Value.float 7)], ⟨0, 0, true⟩⟩

/-- A measurement whose configured time field is the skipped key. -/
def measID7 : InfluxMeasure := { measBase with timefield := "_id" }

/-- An event whose `_id` holds a wall-clock time. -/
def opID7 : GtmOp :=
  { db := "db", coll := "c", kind := OpKind.insert, Timestamp := 5,
    Data := [("_id", Value.time ⟨100, 0, false⟩), ("f", Value.int 1)] }

/-- An event with an empty-string key holding a wall-clock time, under a
measurement with an empty time field. -/
def opE7 : GtmOp :=
  { db := "db", coll := "c", kind := OpKind.insert, Timestamp := 8589934592,
    Data := [("", Value.time ⟨100, 0, false⟩), ("f", Value.int 1)] }

/-- The point produced for `opE7`: its time is the data value, not the
event timestamp. -/
def ptE7 : Point := ⟨"c", [], [("f", Value.int 1)], ⟨100, 0, true⟩⟩

/-- A measurement with a plain configured time field. -/
def measTs7 : InfluxMeasure := { measBase with timefield := "ts" }

/-- An event holding a wall-clock time under the configured field. -/
def opTs7 : GtmOp :=
  { db := "db", coll := "c", kind := OpKind.insert, Timestamp := 5,
    Data := [("ts", Value.time ⟨100, 0, false⟩), ("f", Value.int 1)] }

/-- A measurement whose time field names a nested leaf. -/
def measNest : InfluxMeasure := { measBase with timefield := "meta.ts" }

/-- An event storing the time value inside a sub-document. -/
def opNest : GtmOp :=
  { db := "db", coll := "c", kind := OpKind.insert, Timestamp := 5,
    Data := [("meta", Value.doc [("ts", Value.time ⟨100, 0, false⟩)]),
      ("f", Value.int 1)] }

/-- The add-point context registered with the nested-time measurement. -/
def ctxNest : InfluxCtx := { ctxAdd with measures := [("db.c", measNest)] }

theorem mapLookup_mapInsert_self {α : Type} (m : List (String × α)) (k : String)
    (v : α) : mapLookup (mapInsert m k v) k = some v := by
  simp [mapLookup, mapInsert]

theorem mem_mapInsert {α : Type} {m : List (String × α)} {k : String} {v : α}
    {kv : String × α} (h : kv ∈ mapInsert m k v) : kv = (k, v) ∨ kv ∈ m := by
  rcases List.mem_cons.mp h with h | h
  · exact Or.inl h
  · exact Or.inr (List.mem_filter.mp h).1

theorem mapLookup_filter_ne {α : Type} (m : List (String × α)) (k k' : String)
    (h : ¬(k = k')) :
    mapLookup (m.filter (fun p => !(p.1 == k'))) k = mapLookup m k := by
  induction m with
  | nil => rfl
  | cons hd tl ih =>
      obtain ⟨a, b⟩ := hd
      have h3 : ¬(k' = k) := fun hc => h hc.symm
      by_cases h1 : a = k'
      · have h2 : ¬(a = k) := fun hc => h (hc ▸ h1)
        simp [mapLookup, List.filter, beq_iff_eq, h1, h2, h3, ih]
      · by_cases h2 : a = k
        · subst h2
          have h1f : (a == k') = false := beq_eq_false_iff_ne.mpr h1
          simp [mapLookup, List.filter, h1f]
        · have h1f : (a == k') = false := beq_eq_false_iff_ne.mpr h1
          have h2f : (a == k) = false := beq_eq_false_iff_ne.mpr h2
          simp [mapLookup, List.filter, h1f, h2f, ih]

theorem mapLookup_mapInsert_ne {α : Type} (m : List (String × α)) (k k' : String)
    (v : α) (h : ¬(k = k')) :
    mapLookup (mapInsert m k' v) k = mapLookup m k := by
  have h1 : ¬(k' = k) := fun hc => h hc.symm
  simp only [mapInsert, mapLookup, beq_iff_eq, h1, if_false]
  exact mapLookup_filter_ne m k k' h

theorem mapLookup_insert_isSome {α : Type} (m : List (String × α))
    (k k' : String) (v : α) (h : (mapLookup m k).isSome = true) :
    (mapLookup (mapInsert m k' v) k).isSome = true := by
  by_cases he : k = k'
  · subst he
    simp [mapLookup_mapInsert_self]
  · rw [mapLookup_mapInsert_ne m k k' v he]
    exact h

theorem writeLoop_eq (l : List (String × BatchPoints)) :
    ∀ ctx : InfluxCtx, writeLoop ctx l =
      ({ ctx with sinkWrites := ctx.sinkWrites ++ attempted ctx.sinkErr l },
        firstWriteErr ctx.sinkErr l) := by
  induction l with
  | nil => intro ctx; simp [writeLoop, attempted, firstWriteErr]
  | cons hd tl ih =>
      intro ctx
      obtain ⟨ns, bp⟩ := hd
      simp only [writeLoop, attempted, firstWriteErr]
      cases h : ctx.sinkErr ns with
      | some e => simp [h]
      | none => simp [h, ih]

/-- C1 counterexample: with one open batch and a failing sink write, the
flush returns the write error, yet the open-batch map comes back empty —
the unwritten batch does not remain for retry, refuting the claim that
failed batches stay in the map. -/
theorem C1_cx :
    (ctxFail.writeBatch).2 = some "boom"
    ∧ (ctxFail.writeBatch).1.m = []
    ∧ ctxFail.m ≠ [] := by
  refine ⟨rfl, rfl, ?_⟩
  simp [ctxFail]

/-- C1 amended: when a sink write fails during a flush, the flush stops at
the first failing batch (the attempted writes are exactly the prefix up to
and including that batch) and returns that error, but the open-batch map
is unconditionally replaced with an empty map, so the unwritten batches
are discarded rather than retried; no checkpoint save happens. -/
theorem C1_flush_stops_and_clears (ctx : InfluxCtx) (e : String)
    (h : firstWriteErr ctx.sinkErr ctx.m = some e) :
    (ctx.writeBatch).2 = some e
    ∧ (ctx.writeBatch).1.m = []
    ∧ (ctx.writeBatch).1.sinkWrites = ctx.sinkWrites ++ attempted ctx.sinkErr ctx.m
    ∧ (ctx.writeBatch).1.saved = ctx.saved := by
  unfold InfluxCtx.writeBatch
  rw [writeLoop_eq]
  simp [h]

/-- C1 witness: the amended statement at the concrete failing context. -/
theorem C1_witness :
    (ctxFail.writeBatch).2 = some "boom"
    ∧ (ctxFail.writeBatch).1.m = []
    ∧ (ctxFail.writeBatch).1.sinkWrites
        = ctxFail.sinkWrites ++ attempted ctxFail.sinkErr ctxFail.m
    ∧ (ctxFail.writeBatch).1.saved = ctxFail.saved :=
  C1_flush_stops_and_clears ctxFail "boom" rfl

/-- C2: a flush saves a checkpoint only when every batch write succeeded;
on full success with resume enabled and a non-zero tracked timestamp the
record for the resume name is upserted and the tracked timestamp is
cleared to zero; otherwise, and on any write failure, no save happens. -/
theorem C2_checkpoint_iff_full_success :
    (∀ ctx : InfluxCtx, (ctx.writeBatch).1.saved ≠ ctx.saved →
        firstWriteErr ctx.sinkErr ctx.m = none)
    ∧ (∀ ctx : InfluxCtx, firstWriteErr ctx.sinkErr ctx.m = none →
        ctx.config.Resume = true → ¬(ctx.lastTs = 0) →
        (ctx.writeBatch).1.saved
            = ctx.saved ++ [⟨Name, "resume", ctx.config.ResumeName, ctx.lastTs⟩]
          ∧ (ctx.writeBatch).1.lastTs = 0)
    ∧ (∀ ctx : InfluxCtx, firstWriteErr ctx.sinkErr ctx.m = none →
        (ctx.config.Resume = false ∨ ctx.lastTs = 0) →
        (ctx.writeBatch).1.saved = ctx.saved)
    ∧ (∀ (ctx : InfluxCtx) (e : String), firstWriteErr ctx.sinkErr ctx.m = some e →
        (ctx.writeBatch).1.saved = ctx.saved) := by
  refine ⟨?_, ?_, ?_, ?_⟩
  · intro ctx hne
    cases hfe : firstWriteErr ctx.sinkErr ctx.m with
    | none => rfl
    | some e =>
        exfalso
        apply hne
        unfold InfluxCtx.writeBatch
        rw [writeLoop_eq]
        simp [hfe]
  · intro ctx hfe hres hlast
    have hz : (ctx.lastTs == 0) = false := beq_eq_false_iff_ne.mpr hlast
    unfold InfluxCtx.writeBatch
    rw [writeLoop_eq]
    simp [hfe, InfluxCtx.saveTs, SaveTimestamp, hres, hz]
  · intro ctx hfe hcase
    unfold InfluxCtx.writeBatch
    rw [writeLoop_eq]
    rcases hcase with hres | hz
    · simp [hfe, InfluxCtx.saveTs, hres]
    · simp [hfe, InfluxCtx.saveTs, hz]
  · intro ctx e hfe
    unfold InfluxCtx.writeBatch
    rw [writeLoop_eq]
    simp [hfe]

/-- C2 witness: full success with resume on and tracked timestamp 5
appends exactly one checkpoint record and clears the timestamp. -/
theorem C2_witness :
    (ctxOkSink.writeBatch).1.saved
        = ctxOkSink.saved
            ++ [⟨Name, "resume", ctxOkSink.config.ResumeName, ctxOkSink.lastTs⟩]
    ∧ (ctxOkSink.writeBatch).1.lastTs = 0 :=
  C2_checkpoint_iff_full_success.2.1 ctxOkSink rfl rfl (by decide)

/-- C3 counterexample: resume enabled, no replay, no explicit resume-from
timestamp, and an empty checkpoint store.  The claim says the start
timestamp is 0 when no checkpoint exists, but the code falls back to the
current tail of the oplog (here 5). -/
theorem C3_cx :
    startTimestamp cfgC3 5 [] = 5
    ∧ startTimestampSpec cfgC3 5 [] = 0
    ∧ startTimestamp cfgC3 5 [] ≠ startTimestampSpec cfgC3 5 [] := by
  refine ⟨rfl, rfl, ?_⟩
  decide

/-- C3 amended: with resume enabled the start timestamp is 0 on replay,
else the explicit resume-from value when non-zero, else the stored
checkpoint, falling back to the current oplog tail (not 0) when no
checkpoint exists; with resume disabled it is 0 on replay and otherwise
the current tail, the explicit resume-from value being ignored. -/
theorem C3_start_timestamp :
    (∀ (cfg : configOptions) (tail : Int) (store : List SavedRec),
        cfg.Replay = true → startTimestamp cfg tail store = 0)
    ∧ (∀ (cfg : configOptions) (tail : Int) (store : List SavedRec),
        cfg.Replay = false → cfg.Resume = true → ¬(cfg.ResumeFromTimestamp = 0) →
        startTimestamp cfg tail store = cfg.ResumeFromTimestamp)
    ∧ (∀ (cfg : configOptions) (tail : Int) (store : List SavedRec),
        cfg.Replay = false → cfg.Resume = true → cfg.ResumeFromTimestamp = 0 →
        startTimestamp cfg tail store
          = (loadResumeTs store cfg.ResumeName).getD tail)
    ∧ (∀ (cfg : configOptions) (tail : Int) (store : List SavedRec),
        cfg.Resume = false → cfg.Replay = false →
        startTimestamp cfg tail store = tail) := by
  refine ⟨?_, ?_, ?_, ?_⟩ <;> intro cfg tail store
  · intro hre
    cases hr : cfg.Resume <;> simp [startTimestamp, hre, hr]
  · intro hre hr hf
    have hfz : (cfg.ResumeFromTimestamp == 0) = false := beq_eq_false_iff_ne.mpr hf
    simp [startTimestamp, hre, hr, hfz]
  · intro hre hr hf
    cases hl : loadResumeTs store cfg.ResumeName <;>
      simp [startTimestamp, hre, hr, hf, hl]
  · intro hr hre
    simp [startTimestamp, hr, hre]

/-- C3 witness: the amended statement at the concrete empty-store input. -/
theorem C3_witness :
    startTimestamp cfgC3 5 [] = (loadResumeTs [] cfgC3.ResumeName).getD 5 :=
  C3_start_timestamp.2.2.1 cfgC3 5 [] rfl rfl rfl

/-- C4 counterexample: two distinct measurement specs sharing a namespace
are accepted — setup succeeds where the claim requires it to fail. -/
theorem C4_cx :
    (setupMeasurements [msA, msB]).isOk = true
    ∧ msA.Namespace = msB.Namespace
    ∧ msA.Measure ≠ msB.Measure := by
  refine ⟨rfl, rfl, ?_⟩
  decide

theorem setupLoop_isOk (mss : List measureSettings) :
    ∀ acc, (setupLoop mss acc).isOk = true ↔ ∀ ms ∈ mss, ms.Fields ≠ [] := by
  induction mss with
  | nil => intro acc; simp [setupLoop, Except.isOk, Except.toBool]
  | cons ms rest ih =>
      intro acc
      by_cases hf : ms.Fields = []
      · simp [setupLoop, mkMeasure, hf, Except.isOk, Except.toBool]
      · have hlen : ((mkMeasure ms).fields.length == 0) = false := by
          simp [mkMeasure, List.length_eq_zero]
          exact hf
        simp [setupLoop, hlen, ih, hf]

theorem setupLoop_isSome_mono (mss : List measureSettings) :
    ∀ acc res k, setupLoop mss acc = Except.ok res →
      (mapLookup acc k).isSome = true → (mapLookup res k).isSome = true := by
  induction mss with
  | nil =>
      intro acc res k h hs
      simp [setupLoop] at h
      exact h ▸ hs
  | cons ms rest ih =>
      intro acc res k h hs
      cases hb : ((mkMeasure ms).fields.length == 0) <;> simp [setupLoop, hb] at h
      exact ih _ res k h (mapLookup_insert_isSome _ _ _ _ hs)

theorem setupLoop_registered (mss : List measureSettings) :
    ∀ acc res, setupLoop mss acc = Except.ok res →
      ∀ ms ∈ mss, (mapLookup res ms.Namespace).isSome = true := by
  induction mss with
  | nil =>
      intro acc res h ms hm
      simp at hm
  | cons m0 rest ih =>
      intro acc res h ms hm
      cases hb : ((mkMeasure m0).fields.length == 0) <;> simp [setupLoop, hb] at h
      rcases List.mem_cons.mp hm with he | hm2
      · subst he
        refine setupLoop_isSome_mono rest _ res ms.Namespace h ?_
        rw [mapLookup_mapInsert_self]
        rfl
      · exact ih _ res h ms hm2

theorem setupLoop_from (mss : List measureSettings) :
    ∀ acc res, setupLoop mss acc = Except.ok res →
      ∀ kv ∈ res, kv ∈ acc ∨ ∃ ms ∈ mss, kv.1 = ms.Namespace ∧ kv.2 = mkMeasure ms := by
  induction mss with
  | nil =>
      intro acc res h kv hkv
      simp [setupLoop] at h
      exact Or.inl (h ▸ hkv)
  | cons m0 rest ih =>
      intro acc res h kv hkv
      cases hb : ((mkMeasure m0).fields.length == 0) <;> simp [setupLoop, hb] at h
      rcases ih _ res h kv hkv with hin | ⟨ms, hms, h1, h2⟩
      · rcases mem_mapInsert hin with he | hin2
        · right
          exact ⟨m0, List.mem_cons_self _ _, by rw [he], by rw [he]⟩
        · exact Or.inl hin2
      · right
        exact ⟨ms, List.mem_cons_of_mem _ hms, h1, h2⟩

/-- C4 amended: measurement setup fails exactly when zero measurements are
configured or some spec has an empty field list; duplicate namespaces are
accepted, the later spec overwriting the earlier.  On success every
configured namespace is registered, every registered measure comes from
one of the configured specs, and precision defaults to `s` when empty. -/
theorem C4_setup_rejects :
    (∀ mss : List measureSettings,
        (setupMeasurements mss).isOk = true
          ↔ (mss ≠ [] ∧ ∀ ms ∈ mss, ms.Fields ≠ []))
    ∧ (∀ (mss : List measureSettings) (res : List (String × InfluxMeasure)),
        setupMeasurements mss = Except.ok res →
        (∀ ms ∈ mss, (mapLookup res ms.Namespace).isSome = true)
        ∧ (∀ kv ∈ res, ∃ ms ∈ mss, kv.1 = ms.Namespace ∧ kv.2 = mkMeasure ms))
    ∧ (∀ ms : measureSettings, ms.Precision = "" → (mkMeasure ms).precision = "s") := by
  refine ⟨?_, ?_, ?_⟩
  · intro mss
    cases mss with
    | nil => simp [setupMeasurements, Except.isOk, Except.toBool]
    | cons m0 rest =>
        rw [setupMeasurements]
        simp only [List.length_cons, Nat.succ_pos, if_pos]
        rw [setupLoop_isOk]
        simp
  · intro mss res h
    cases mss with
    | nil => simp [setupMeasurements] at h
    | cons m0 rest =>
        rw [setupMeasurements] at h
        simp only [List.length_cons, Nat.succ_pos, if_pos] at h
        refine ⟨setupLoop_registered _ _ _ h, ?_⟩
        intro kv hkv
        rcases setupLoop_from _ _ _ h kv hkv with hin | hex
        · simp at hin
        · exact hex
  · intro ms h
    simp [mkMeasure, h]

/-- C4 witness: a single one-field measurement passes setup. -/
theorem C4_witness : (setupMeasurements [msA]).isOk = true :=
  (C4_setup_rejects.1 [msA]).mpr
    ⟨by simp, by
      intro ms hm
      simp at hm
      subst hm
      simp [msA]⟩

theorem NewBatchPoints_ok (d r p : String) (bp : BatchPoints)
    (h : NewBatchPoints d r p = Except.ok bp) : bp.points = [] := by
  unfold NewBatchPoints at h
  split at h
  · cases h
    rfl
  · cases h

theorem createDatabase_frame (ctx : InfluxCtx) (db : String) :
    (ctx.createDatabase db).1.m = ctx.m
    ∧ (ctx.createDatabase db).1.config = ctx.config
    ∧ (ctx.createDatabase db).1.lastTs = ctx.lastTs := by
  unfold InfluxCtx.createDatabase
  cases ha : ctx.config.InfluxAutoCreateDB <;> simp [ha]
  by_cases hc : db ∈ ctx.dbs
  · simp [hc]
  · simp only [hc, if_false]
    cases hq : ctx.queryErr db <;> simp [hq]

theorem setupDatabase_none (ctx : InfluxCtx) (op : GtmOp)
    (h : (ctx.setupDatabase op).2 = none) :
    (ctx.setupDatabase op).1.config = ctx.config
    ∧ (ctx.setupDatabase op).1.lastTs = ctx.lastTs
    ∧ ∃ bp, mapLookup (ctx.setupDatabase op).1.m op.Namespace = some bp
        ∧ bp.points.length
            = (match mapLookup ctx.m op.Namespace with
               | some b => b.points.length
               | none => 0) := by
  unfold InfluxCtx.setupDatabase at h ⊢
  cases hm : mapLookup ctx.m op.Namespace with
  | some bp =>
      simp only [hm]
      exact ⟨trivial, trivial, bp, rfl, rfl⟩
  | none =>
      simp only [hm] at h ⊢
      cases hms : mapLookup ctx.measures op.Namespace with
      | none => simp [hms] at h
      | some meas =>
          simp only [hms] at h ⊢
          cases hnb : NewBatchPoints op.GetDatabase meas.retention meas.precision with
          | error e => simp [hnb] at h
          | ok bp =>
              simp only [hnb] at h ⊢
              have hf := createDatabase_frame
                { ctx with m := mapInsert ctx.m op.Namespace bp } op.GetDatabase
              refine ⟨hf.2.1.trans rfl, hf.2.2.trans rfl, bp, ?_, ?_⟩
              · rw [hf.1]
                exact mapLookup_mapInsert_self _ _ _
              · rw [NewBatchPoints_ok _ _ _ _ hnb]
                rfl

/-- C5 counterexample: adding a point at timestamp 5 and then one at
timestamp 3 leaves the tracked timestamp at 3 — the update is not guarded
by a strictly-greater test, so the tracked value decreases. -/
theorem C5_cx :
    (ctxAdd.addPoint opT5).1.lastTs = 5
    ∧ (((ctxAdd.addPoint opT5).1.addPoint opT3).1.lastTs = 3)
    ∧ (((ctxAdd.addPoint opT5).1.addPoint opT3).2 = none)
    ∧ opT3.Timestamp < opT5.Timestamp := by
  exact ⟨rfl, rfl, rfl, by decide⟩

/-- C5 amended: whenever `addPoint` appends a point (a measure is
registered, no error is returned, and the buffer threshold is not
reached), the tracked timestamp is set to the event timestamp
unconditionally, with no strictly-greater guard, so it follows the last
consumed event rather than the maximum. -/
theorem C5_lastTs_set_unconditionally (ctx : InfluxCtx) (op : GtmOp)
    (meas : InfluxMeasure)
    (h1 : mapLookup ctx.measures op.Namespace = some meas)
    (h2 : (ctx.addPoint op).2 = none)
    (h3 : (match mapLookup ctx.m op.Namespace with
           | some b => b.points.length
           | none => 0) + 1 < ctx.config.InfluxBufferSize) :
    (ctx.addPoint op).1.lastTs = op.Timestamp := by
  unfold InfluxCtx.addPoint at h2 ⊢
  rw [h1] at h2 ⊢
  dsimp only at h2 ⊢
  rcases hsd : ctx.setupDatabase op with ⟨c1, e⟩
  rw [hsd] at h2
  cases e with
  | some err =>
      dsimp only at h2
      exact absurd h2 (by simp)
  | none =>
      dsimp only at h2 ⊢
      have hse : (ctx.setupDatabase op).2 = none := by rw [hsd]
      obtain ⟨hcfg, hlast, bp, hbp, hlen⟩ := setupDatabase_none ctx op hse
      rw [hsd] at hcfg hlast hbp
      dsimp only at hcfg hlast hbp
      cases hp : projectPoint meas op with
      | error e2 =>
          rw [hp] at h2
          dsimp only at h2
          exact absurd h2 (by simp)
      | ok pt =>
          rw [hp] at h2
          dsimp only at h2 ⊢
          rw [hbp] at h2 ⊢
          dsimp only at h2 ⊢
          split at h2
          · rename_i hcond
            exfalso
            simp only [List.length_append, List.length_singleton] at hcond
            rw [hlen, hcfg] at hcond
            omega
          · rename_i hcond
            split
            · rename_i hcond2
              exact absurd hcond2 hcond
            · rfl

/-- C5 witness: the amended statement at a concrete add. -/
theorem C5_witness : (ctxAdd.addPoint opT5).1.lastTs = opT5.Timestamp :=
  C5_lastTs_set_unconditionally ctxAdd opT5 measBase rfl rfl (by decide)

/-- C6: the composed filter admits an event exactly when the operation is
an insert or update, the database is not the reserved `Name`, the
collection matches neither `\.chunks$` nor `system\..+`, a configured
include matcher accepts the namespace, and a configured exclude matcher
rejects it; and the database the filter excludes, `Name`, is the same
constant under which `SaveTimestamp` upserts the checkpoint record and
under which the resume load reads it (records in other databases are
invisible to the load). -/
theorem C6_filter_and_checkpoint_db :
    (∀ (inc exc : Option (String → Bool)) (op : GtmOp),
        mainFilter inc exc op = true ↔
          (IsInsertOrUpdate op = true
           ∧ op.GetDatabase ≠ Name
           ∧ chunksMatch op.GetCollection = false
           ∧ systemsMatch op.GetCollection = false
           ∧ (∀ f, inc = some f → f op.Namespace = true)
           ∧ (∀ f, exc = some f → f op.Namespace = false)))
    ∧ (∀ (ctx : InfluxCtx) (ts : Int) (nm : String),
        (SaveTimestamp ctx ts nm).1.saved = ctx.saved ++ [⟨Name, "resume", nm, ts⟩])
    ∧ (∀ (store : List SavedRec) (nm : String),
        loadResumeTs store nm
          = loadResumeTs (store.filter (fun r => r.db == Name)) nm) := by
  refine ⟨?_, ?_, ?_⟩
  · intro inc exc op
    cases inc <;> cases exc <;>
      simp [mainFilter, ChainOpFilters, buildFilterChain, NotMongoFlux,
        NotChunks, NotSystem, FilterWithRegex, FilterInverseWithRegex,
        GtmOp.GetDatabase, beq_iff_eq, Bool.not_eq_true', and_assoc] <;>
      tauto
  · intro ctx ts nm
    rfl
  · intro store nm
    induction store with
    | nil => rfl
    | cons r rest ih =>
        by_cases hdb : r.db = Name
        · have ht : (r.db == Name) = true := beq_iff_eq.mpr hdb
          rw [List.filter_cons, if_pos ht]
          simp only [loadResumeTs]
          cases hp : (r.db == Name && r.coll == "resume" && r.id == nm) <;>
            simp [hp, ih]
        · have hf : (r.db == Name) = false := beq_eq_false_iff_ne.mpr hdb
          have hp : (r.db == Name && r.coll == "resume" && r.id == nm) = false := by
            simp [hf]
          rw [List.filter_cons, if_neg (by simp [hf])]
          simp only [loadResumeTs]
          simp [hp, ih]

/-- C6 witness: a plain insert into an ordinary collection passes the
filter chain with no regexes configured. -/
theorem C6_witness : mainFilter none none opPlain = true :=
  (C6_filter_and_checkpoint_db.1 none none opPlain).mpr
    ⟨rfl, by decide, rfl, rfl,
      fun f h => Option.noConfusion h, fun f h => Option.noConfusion h⟩

theorem classifyKV_time (meas : InfluxMeasure) (acc : ProjAcc) (fk : String)
    (fv : Value) :
    (classifyKV meas acc fk fv).t = acc.t
    ∧ (classifyKV meas acc fk fv).missing = acc.missing := by
  constructor <;>
  · unfold classifyKV
    split
    · cases fv <;> rfl
    · split
      · split <;> rfl
      · rfl

theorem classifyFlat_time (meas : InfluxMeasure) (flat : List (String × Value)) :
    ∀ acc : ProjAcc, (classifyFlat meas acc flat).t = acc.t
      ∧ (classifyFlat meas acc flat).missing = acc.missing := by
  induction flat with
  | nil => intro acc; exact ⟨rfl, rfl⟩
  | cons hd tl ih =>
      intro acc
      obtain ⟨fk, fv⟩ := hd
      simp only [classifyFlat]
      obtain ⟨h1, h2⟩ := ih (classifyKV meas acc fk fv)
      obtain ⟨g1, g2⟩ := classifyKV_time meas acc fk fv
      exact ⟨h1.trans g1, h2.trans g2⟩

theorem processData_time_const (meas : InfluxMeasure)
    (data : List (String × Value)) :
    ∀ acc : ProjAcc,
      (∀ kv ∈ data, kv.1 ≠ "_id" → kv.1 = meas.timefield →
          timeTyped kv.2 = false) →
      (processData meas acc data).t = acc.t
      ∧ (processData meas acc data).missing = acc.missing := by
  induction data with
  | nil => intro acc _; exact ⟨rfl, rfl⟩
  | cons hd tl ih =>
      intro acc hall
      obtain ⟨k, v⟩ := hd
      have htl : ∀ kv ∈ tl, kv.1 ≠ "_id" → kv.1 = meas.timefield →
          timeTyped kv.2 = false :=
        fun kv hkv => hall kv (List.mem_cons_of_mem _ hkv)
      have step : ∀ A : ProjAcc, A.t = acc.t → A.missing = acc.missing →
          (processData meas A tl).t = acc.t
          ∧ (processData meas A tl).missing = acc.missing :=
        fun A h1 h2 => ⟨(ih A htl).1.trans h1, (ih A htl).2.trans h2⟩
      by_cases hid : k = "_id"
      · have hb : (k == "_id") = true := beq_iff_eq.mpr hid
        simp only [processData, hb, if_true]
        exact ih acc htl
      · have hb : ¬((k == "_id") = true) := fun hc => hid (beq_iff_eq.mp hc)
        simp only [processData]
        rw [if_neg hb]
        try dsimp only
        cases v with
        | time tv =>
            have hne : ¬((meas.timefield == k) = true) := by
              intro hc
              have hk : k = meas.timefield := (beq_iff_eq.mp hc).symm
              have := hall (k, Value.time tv) (List.mem_cons_self _ _) hid hk
              simp [timeTyped] at this
            dsimp only
            rw [if_neg hne]
            exact step acc rfl rfl
        | mts ts =>
            have hne : ¬((meas.timefield == k) = true) := by
              intro hc
              have hk : k = meas.timefield := (beq_iff_eq.mp hc).symm
              have := hall (k, Value.mts ts) (List.mem_cons_self _ _) hid hk
              simp [timeTyped] at this
            dsimp only
            rw [if_neg hne]
            exact step acc rfl rfl
        | doc child =>
            exact step _ (classifyFlat_time meas _ acc).1
              (classifyFlat_time meas _ acc).2
        | str s => exact step _ (classifyKV_time meas acc k _).1 (classifyKV_time meas acc k _).2
        | int i => exact step _ (classifyKV_time meas acc k _).1 (classifyKV_time meas acc k _).2
        | float b => exact step _ (classifyKV_time meas acc k _).1 (classifyKV_time meas acc k _).2
        | bool b => exact step _ (classifyKV_time meas acc k _).1 (classifyKV_time meas acc k _).2
        | arr l => exact step _ (classifyKV_time meas acc k _).1 (classifyKV_time meas acc k _).2
        | null => exact step _ (classifyKV_time meas acc k _).1 (classifyKV_time meas acc k _).2
        | other => exact step _ (classifyKV_time meas acc k _).1 (classifyKV_time meas acc k _).2

theorem processData_time_found (meas : InfluxMeasure)
    (data : List (String × Value)) :
    ∀ (v0 : Value) (acc : ProjAcc),
      meas.timefield ≠ "_id" →
      (data.map Prod.fst).Nodup →
      (meas.timefield, v0) ∈ data →
      timeTyped v0 = true →
      (processData meas acc data).missing = false
      ∧ (processData meas acc data).t = timeConv v0 := by
  induction data with
  | nil =>
      intro v0 acc _ _ hmem _
      simp at hmem
  | cons hd tl ih =>
      intro v0 acc htfid hnd hmem hty
      obtain ⟨k, v⟩ := hd
      have hknotin : k ∉ tl.map Prod.fst := (List.nodup_cons.mp hnd).1
      have hndtl : (tl.map Prod.fst).Nodup := (List.nodup_cons.mp hnd).2
      rcases List.mem_cons.mp hmem with he | hmem2
      · obtain ⟨hk, hv⟩ := Prod.mk.injEq .. |>.mp he.symm
        have hid : k ≠ "_id" := fun hc => htfid (hk ▸ hc)
        have hb : ¬((k == "_id") = true) := fun hc => hid (beq_iff_eq.mp hc)
        simp only [processData]
        rw [if_neg hb]
        try dsimp only
        have hcond : ∀ kv ∈ tl, kv.1 ≠ "_id" → kv.1 = meas.timefield →
            timeTyped kv.2 = false := by
          intro kv hkv _ h2
          exact absurd (hk ▸ h2 ▸ List.mem_map_of_mem Prod.fst hkv) hknotin
        have htb : (meas.timefield == k) = true := beq_iff_eq.mpr hk.symm
        subst hv
        cases v with
        | time tv =>
            dsimp only
            rw [if_pos htb]
            obtain ⟨g1, g2⟩ := processData_time_const meas tl
              { acc with t := tv.UTC, missing := false } hcond
            exact ⟨g2, g1⟩
        | mts ts =>
            dsimp only
            rw [if_pos htb]
            obtain ⟨g1, g2⟩ := processData_time_const meas tl
              { acc with t := TimestampTime ts, missing := false } hcond
            exact ⟨g2, g1⟩
        | str s => simp [timeTyped] at hty
        | int i => simp [timeTyped] at hty
        | float b => simp [timeTyped] at hty
        | bool b => simp [timeTyped] at hty
        | doc d => simp [timeTyped] at hty
        | arr l => simp [timeTyped] at hty
        | null => simp [timeTyped] at hty
        | other => simp [timeTyped] at hty
      · by_cases hid : k = "_id"
        · have hb : (k == "_id") = true := beq_iff_eq.mpr hid
          simp only [processData, hb, if_true]
          exact ih v0 acc htfid hndtl hmem2 hty
        · have hb : ¬((k == "_id") = true) := fun hc => hid (beq_iff_eq.mp hc)
          simp only [processData]
          rw [if_neg hb]
          try dsimp only
          exact ih v0 _ htfid hndtl hmem2 hty

theorem classifyKV_inv (meas : InfluxMeasure) (acc : ProjAcc) (fk : String)
    (fv : Value) (P : String → Prop) (hP : P fk)
    (ht : ∀ kv ∈ acc.tags, meas.tags.contains kv.1 = true ∧ P kv.1)
    (hf : ∀ kv ∈ acc.fields,
        meas.fields.contains kv.1 = true ∧ P kv.1 ∧ isfieldtype kv.2 = true) :
    (∀ kv ∈ (classifyKV meas acc fk fv).tags,
        meas.tags.contains kv.1 = true ∧ P kv.1)
    ∧ (∀ kv ∈ (classifyKV meas acc fk fv).fields,
        meas.fields.contains kv.1 = true ∧ P kv.1 ∧ isfieldtype kv.2 = true) := by
  unfold classifyKV
  split
  · rename_i h1
    cases fv <;> try exact ⟨ht, hf⟩
    rename_i s
    refine ⟨?_, hf⟩
    intro kv hkv
    rcases mem_mapInsert hkv with he | hin
    · subst he
      exact ⟨h1, hP⟩
    · exact ht kv hin
  · split
    · rename_i h1 h2
      split
      · rename_i h3
        refine ⟨ht, ?_⟩
        intro kv hkv
        rcases mem_mapInsert hkv with he | hin
        · subst he
          exact ⟨h2, hP, h3⟩
        · exact hf kv hin
      · exact ⟨ht, hf⟩
    · exact ⟨ht, hf⟩

theorem classifyFlat_inv (meas : InfluxMeasure) (P : String → Prop)
    (flat : List (String × Value)) :
    ∀ acc : ProjAcc,
      (∀ kv ∈ flat, P kv.1) →
      (∀ kv ∈ acc.tags, meas.tags.contains kv.1 = true ∧ P kv.1) →
      (∀ kv ∈ acc.fields,
          meas.fields.contains kv.1 = true ∧ P kv.1 ∧ isfieldtype kv.2 = true) →
      (∀ kv ∈ (classifyFlat meas acc flat).tags,
          meas.tags.contains kv.1 = true ∧ P kv.1)
      ∧ (∀ kv ∈ (classifyFlat meas acc flat).fields,
          meas.fields.contains kv.1 = true ∧ P kv.1 ∧ isfieldtype kv.2 = true) := by
  induction flat with
  | nil => intro acc _ ht hf; exact ⟨ht, hf⟩
  | cons hd tl ih =>
      intro acc hfl ht hf
      obtain ⟨fk, fv⟩ := hd
      simp only [classifyFlat]
      have hP : P fk := hfl (fk, fv) (List.mem_cons_self _ _)
      obtain ⟨ht2, hf2⟩ := classifyKV_inv meas acc fk fv P hP ht hf
      exact ih _ (fun kv hkv => hfl kv (List.mem_cons_of_mem _ hkv)) ht2 hf2

theorem flatmap_key_pre (pre : String) :
    ∀ (m : List (String × Value)) (kv : String × Value), kv ∈ flatmap pre m →
      ∃ s : String, kv.1 = pre ++ s := by
  intro m
  induction m with
  | nil => intro kv h; simp [flatmap] at h
  | cons hd rest ih =>
      intro kv h
      obtain ⟨k, v⟩ := hd
      cases v with
      | doc child =>
          simp only [flatmap, List.mem_append] at h
          rcases h with he | h
          · rcases List.mem_map.mp he with ⟨p, _, hep⟩
            refine ⟨k ++ ("." ++ p.1), ?_⟩
            rw [← hep]
            rw [String.append_assoc, String.append_assoc]
          · exact ih kv h
      | str s =>
          simp only [flatmap, isfieldtype, if_true, List.mem_append,
            List.mem_singleton] at h
          rcases h with he | h
          · exact ⟨k, by rw [he]⟩
          · exact ih kv h
      | int i =>
          simp only [flatmap, isfieldtype, if_true, List.mem_append,
            List.mem_singleton] at h
          rcases h with he | h
          · exact ⟨k, by rw [he]⟩
          · exact ih kv h
      | float b =>
          simp only [flatmap, isfieldtype, if_true, List.mem_append,
            List.mem_singleton] at h
          rcases h with he | h
          · exact ⟨k, by rw [he]⟩
          · exact ih kv h
      | bool b =>
          simp only [flatmap, isfieldtype, if_true, List.mem_append,
            List.mem_singleton] at h
          rcases h with he | h
          · exact ⟨k, by rw [he]⟩
          · exact ih kv h
      | time t =>
          simp [flatmap, isfieldtype] at h
          exact ih kv h
      | mts ts =>
          simp [flatmap, isfieldtype] at h
          exact ih kv h
      | arr l =>
          simp [flatmap, isfieldtype] at h
          exact ih kv h
      | null =>
          simp [flatmap, isfieldtype] at h
          exact ih kv h
      | other =>
          simp [flatmap, isfieldtype] at h
          exact ih kv h

theorem dot_key_ne_id (k s : String) : ¬((k ++ ".") ++ s = "_id") := by
  intro h
  have hd : '.' ∈ ((k ++ ".") ++ s).data := by
    have : ((k ++ ".") ++ s).data = (k.data ++ ['.']) ++ s.data := rfl
    rw [this]
    simp
  rw [h] at hd
  exact absurd hd (by decide)

theorem processData_inv (meas : InfluxMeasure) (data : List (String × Value)) :
    ∀ acc : ProjAcc,
      (∀ kv ∈ acc.tags, meas.tags.contains kv.1 = true ∧ kv.1 ≠ "_id") →
      (∀ kv ∈ acc.fields,
          meas.fields.contains kv.1 = true ∧ kv.1 ≠ "_id"
          ∧ isfieldtype kv.2 = true) →
      (∀ kv ∈ (processData meas acc data).tags,
          meas.tags.contains kv.1 = true ∧ kv.1 ≠ "_id")
      ∧ (∀ kv ∈ (processData meas acc data).fields,
          meas.fields.contains kv.1 = true ∧ kv.1 ≠ "_id"
          ∧ isfieldtype kv.2 = true) := by
  induction data with
  | nil => intro acc ht hf; exact ⟨ht, hf⟩
  | cons hd tl ih =>
      intro acc ht hf
      obtain ⟨k, v⟩ := hd
      by_cases hid : k = "_id"
      · have hb : (k == "_id") = true := beq_iff_eq.mpr hid
        simp only [processData, hb, if_true]
        exact ih acc ht hf
      · have hb : ¬((k == "_id") = true) := fun hc => hid (beq_iff_eq.mp hc)
        simp only [processData]
        rw [if_neg hb]
        try dsimp only
        cases v with
        | time tv =>
            dsimp only
            split
            · exact ih _ ht hf
            · exact ih _ ht hf
        | mts ts =>
            dsimp only
            split
            · exact ih _ ht hf
            · exact ih _ ht hf
        | doc child =>
            have hkeys : ∀ kv ∈ flatmap (k ++ ".") child, kv.1 ≠ "_id" := by
              intro kv hkv
              obtain ⟨s, hs⟩ := flatmap_key_pre (k ++ ".") child kv hkv
              rw [hs]
              exact dot_key_ne_id k s
            obtain ⟨ht2, hf2⟩ :=
              classifyFlat_inv meas (fun x => x ≠ "_id")
                (flatmap (k ++ ".") child) acc hkeys ht hf
            exact ih _ ht2 hf2
        | str s =>
            obtain ⟨ht2, hf2⟩ := classifyKV_inv meas acc k _ (fun x => x ≠ "_id") hid ht hf
            exact ih _ ht2 hf2
        | int i =>
            obtain ⟨ht2, hf2⟩ := classifyKV_inv meas acc k _ (fun x => x ≠ "_id") hid ht hf
            exact ih _ ht2 hf2
        | float b =>
            obtain ⟨ht2, hf2⟩ := classifyKV_inv meas acc k _ (fun x => x ≠ "_id") hid ht hf
            exact ih _ ht2 hf2
        | bool b =>
            obtain ⟨ht2, hf2⟩ := classifyKV_inv meas acc k _ (fun x => x ≠ "_id") hid ht hf
            exact ih _ ht2 hf2
        | arr l =>
            obtain ⟨ht2, hf2⟩ := classifyKV_inv meas acc k _ (fun x => x ≠ "_id") hid ht hf
            exact ih _ ht2 hf2
        | null =>
            obtain ⟨ht2, hf2⟩ := classifyKV_inv meas acc k _ (fun x => x ≠ "_id") hid ht hf
            exact ih _ ht2 hf2
        | other =>
            obtain ⟨ht2, hf2⟩ := classifyKV_inv meas acc k _ (fun x => x ≠ "_id") hid ht hf
            exact ih _ ht2 hf2

theorem projectPoint_ok (meas : InfluxMeasure) (op : GtmOp) (pt : Point)
    (h : projectPoint meas op = Except.ok pt) :
    (processData meas (initAcc meas op) op.Data).missing = false
    ∧ pt.tags = (processData meas (initAcc meas op) op.Data).tags
    ∧ pt.fields = (processData meas (initAcc meas op) op.Data).fields
    ∧ pt.time = (processData meas (initAcc meas op) op.Data).t
    ∧ pt.fields.length ≠ 0
    ∧ pt.name = (if (!(meas.measure == "")) = true then meas.measure
        else op.GetCollection) := by
  simp only [projectPoint] at h
  split at h
  · exact Except.noConfusion h
  · rename_i hm
    unfold NewPoint at h
    split at h
    · exact Except.noConfusion h
    · rename_i hl
      injection h with h2
      subst h2
      refine ⟨Bool.eq_false_iff.mpr hm, rfl, rfl, rfl, ?_, rfl⟩
      intro hc
      exact hl (by simp [hc])

theorem projectPoint_missing (meas : InfluxMeasure) (op : GtmOp)
    (h2 : meas.timefield ≠ "")
    (hcond : ∀ kv ∈ op.Data, kv.1 ≠ "_id" → kv.1 = meas.timefield →
        timeTyped kv.2 = false) :
    projectPoint meas op
      = Except.error ("time field " ++ meas.timefield
          ++ " not found in document") := by
  simp only [projectPoint]
  split
  · rfl
  · rename_i hm
    exfalso
    apply hm
    rw [(processData_time_const meas op.Data _ hcond).2]
    simp [initAcc, beq_eq_false_iff_ne.mpr h2]

/-- C9: every point the projector produces draws its tag keys from the
spec tag set and its field keys from the spec field set, never uses the
key `_id`, keeps only field-typed values in fields, has at least one
field, and carries the override measurement name when one is configured
and the collection name otherwise. -/
theorem C9_point_invariants (meas : InfluxMeasure) (op : GtmOp) (pt : Point)
    (h : projectPoint meas op = Except.ok pt) :
    (∀ kv ∈ pt.tags, meas.tags.contains kv.1 = true ∧ kv.1 ≠ "_id")
    ∧ (∀ kv ∈ pt.fields,
        meas.fields.contains kv.1 = true ∧ kv.1 ≠ "_id"
        ∧ isfieldtype kv.2 = true)
    ∧ 1 ≤ pt.fields.length
    ∧ (meas.measure ≠ "" → pt.name = meas.measure)
    ∧ (meas.measure = "" → pt.name = op.GetCollection) := by
  obtain ⟨hm, hts, hfs, htime, hlen, hname⟩ := projectPoint_ok meas op pt h
  have hempty_t : ∀ kv ∈ (initAcc meas op).tags,
      meas.tags.contains kv.1 = true ∧ kv.1 ≠ "_id" := by
    intro kv hkv
    simp [initAcc] at hkv
  have hempty_f : ∀ kv ∈ (initAcc meas op).fields,
      meas.fields.contains kv.1 = true ∧ kv.1 ≠ "_id"
      ∧ isfieldtype kv.2 = true := by
    intro kv hkv
    simp [initAcc] at hkv
  obtain ⟨gt, gf⟩ := processData_inv meas op.Data (initAcc meas op)
    hempty_t hempty_f
  refine ⟨?_, ?_, ?_, ?_, ?_⟩
  · rw [hts]
    exact gt
  · rw [hfs]
    exact gf
  · omega
  · intro hne
    rw [hname]
    simp [beq_eq_false_iff_ne.mpr hne]
  · intro heq
    rw [hname]
    simp [heq]

/-- C9 witness: the invariants at the concrete weather event. -/
theorem C9_witness : 1 ≤ ptW9.fields.length ∧ ptW9.name = opW9.GetCollection :=
  ⟨(C9_point_invariants measW9 opW9 ptW9 rfl).2.2.1,
    (C9_point_invariants measW9 opW9 ptW9 rfl).2.2.2.2 rfl⟩

/-- C7 counterexample.  First: with time field `_id` and a wall-clock
value stored under `_id`, projection fails instead of using the value,
because `_id` is skipped before the time-field match.  Second: with an
empty time field, a data key equal to the empty string overrides the
event-timestamp time, so the point time differs from
`TimestampTime(event.timestamp)`. -/
theorem C7_cx :
    projectPoint measID7 opID7
      = Except.error "time field _id not found in document"
    ∧ projectPoint measBase opE7 = Except.ok ptE7
    ∧ ptE7.time ≠ TimestampTime opE7.Timestamp := by
  refine ⟨rfl, rfl, ?_⟩
  decide

/-- C7 amended: `TimestampTime` yields the UTC wall clock of the high 32
bits; with an empty time field the point time is the event timestamp
unless a data key equal to the empty string holds a time-typed value;
with a configured time field other than `_id`, a wall-clock value under
that key is used normalized to UTC and a replication timestamp is
converted through `TimestampTime`; when no key other than `_id` matching
the time field holds a time-typed value (so also whenever the configured
field is `_id` or names a nested leaf), the projection fails with the
missing-time-field error. -/
theorem C7_time_resolution :
    (∀ ts : Int, ts ≠ 0 → TimestampTime ts = ⟨shr32 ts, 0, true⟩)
    ∧ (∀ (meas : InfluxMeasure) (op : GtmOp) (pt : Point),
        meas.timefield = "" →
        (∀ kv ∈ op.Data, kv.1 = "" → timeTyped kv.2 = false) →
        projectPoint meas op = Except.ok pt →
        pt.time = TimestampTime op.Timestamp)
    ∧ (∀ (meas : InfluxMeasure) (op : GtmOp) (pt : Point) (tv : GoTime),
        meas.timefield ≠ "" → meas.timefield ≠ "_id" →
        (op.Data.map Prod.fst).Nodup →
        (meas.timefield, Value.time tv) ∈ op.Data →
        projectPoint meas op = Except.ok pt →
        pt.time = tv.UTC)
    ∧ (∀ (meas : InfluxMeasure) (op : GtmOp) (pt : Point) (ts : Int),
        meas.timefield ≠ "" → meas.timefield ≠ "_id" →
        (op.Data.map Prod.fst).Nodup →
        (meas.timefield, Value.mts ts) ∈ op.Data →
        projectPoint meas op = Except.ok pt →
        pt.time = TimestampTime ts)
    ∧ (∀ (meas : InfluxMeasure) (op : GtmOp),
        meas.timefield ≠ "" →
        (∀ kv ∈ op.Data, kv.1 = meas.timefield → kv.1 ≠ "_id" →
            timeTyped kv.2 = false) →
        projectPoint meas op
          = Except.error ("time field " ++ meas.timefield
              ++ " not found in document")) := by
  refine ⟨?_, ?_, ?_, ?_, ?_⟩
  · intro ts _
    rfl
  · intro meas op pt heq hno hok
    obtain ⟨_, _, _, htime, _, _⟩ := projectPoint_ok meas op pt hok
    have hcond : ∀ kv ∈ op.Data, kv.1 ≠ "_id" → kv.1 = meas.timefield →
        timeTyped kv.2 = false := by
      intro kv hkv _ hk2
      exact hno kv hkv (heq ▸ hk2)
    rw [htime, (processData_time_const meas op.Data _ hcond).1]
    simp [initAcc, heq]
  · intro meas op pt tv h1 h2 hnd hmem hok
    obtain ⟨_, _, _, htime, _, _⟩ := projectPoint_ok meas op pt hok
    rw [htime,
      (processData_time_found meas op.Data (Value.time tv) (initAcc meas op)
        h2 hnd hmem rfl).2]
    rfl
  · intro meas op pt ts h1 h2 hnd hmem hok
    obtain ⟨_, _, _, htime, _, _⟩ := projectPoint_ok meas op pt hok
    rw [htime,
      (processData_time_found meas op.Data (Value.mts ts) (initAcc meas op)
        h2 hnd hmem rfl).2]
    rfl
  · intro meas op h1 hcnd
    exact projectPoint_missing meas op h1
      (fun kv hkv hid heq => hcnd kv hkv heq hid)

/-- C7 witness: a configured wall-clock time field is used directly,
normalized to UTC. -/
theorem C7_witness : ptE7.time = GoTime.UTC ⟨100, 0, false⟩ :=
  C7_time_resolution.2.2.1 measTs7 opTs7 ptE7 ⟨100, 0, false⟩ (by decide)
    (by decide) (by decide) (List.mem_cons_self _ _) rfl

/-- C10: a configured time field that is not a top-level key of the event
data — in particular a dotted name such as `meta.ts` whose value lives in
a sub-document — is never resolved: the projection fails with the
missing-time-field error and no point is produced, even though the
flattened sub-document contains that very leaf. -/
theorem C10_nested_timefield_fails (ctx : InfluxCtx) (op : GtmOp)
    (meas : InfluxMeasure)
    (h1 : mapLookup ctx.measures op.Namespace = some meas)
    (h2 : meas.timefield ≠ "")
    (h3 : '.' ∈ meas.timefield.data)
    (h4 : ∀ kv ∈ op.Data, kv.1 ≠ meas.timefield)
    (h5 : (ctx.setupDatabase op).2 = none) :
    ctx.addPoint op
      = ((ctx.setupDatabase op).1,
          some ("time field " ++ meas.timefield ++ " not found in document")) := by
  have hproj := projectPoint_missing meas op h2
    (fun kv hkv _ heq => absurd heq (h4 kv hkv))
  unfold InfluxCtx.addPoint
  rw [h1]
  dsimp only
  rcases hsd : ctx.setupDatabase op with ⟨c1, e⟩
  cases e with
  | some err =>
      rw [hsd] at h5
      simp at h5
  | none =>
      dsimp only
      rw [hproj]

/-- C10 witness: the nested `meta.ts` time field fails at the concrete
event even though the sub-document holds the leaf. -/
theorem C10_witness :
    ctxNest.addPoint opNest
      = ((ctxNest.setupDatabase opNest).1,
          some ("time field " ++ "meta.ts" ++ " not found in document")) :=
  C10_nested_timefield_fails ctxNest opNest measNest rfl (by decide)
    (by decide) (by decide) rfl

theorem leaf_nil (p : List String) (v : Value) : ¬ Leaf [] p v := by
  intro h
  cases h <;> simp_all

theorem leaf_cons_of {m : List (String × Value)} {hd : String × Value}
    {p : List String} {v : Value} (h : Leaf m p v) : Leaf (hd :: m) p v := by
  cases h with
  | here hm hnd => exact Leaf.here (List.mem_cons_of_mem _ hm) hnd
  | nest hm hl => exact Leaf.nest (List.mem_cons_of_mem _ hm) hl

theorem leaf_ne_nil {m : List (String × Value)} {p : List String} {v : Value}
    (h : Leaf m p v) : p ≠ [] := by
  cases h <;> simp

theorem dotJoin_cons (k : String) (p : List String) (h : p ≠ []) :
    dotJoin (k :: p) = k ++ "." ++ dotJoin p := by
  cases p with
  | nil => exact absurd rfl h
  | cons a l => rfl

theorem leaf_cons_doc_iff (k : String) (child rest : List (String × Value))
    (p : List String) (v : Value) :
    Leaf ((k, Value.doc child) :: rest) p v
      ↔ (∃ p', p = k :: p' ∧ Leaf child p' v) ∨ Leaf rest p v := by
  constructor
  · intro h
    cases h with
    | here hm hnd =>
        rcases List.mem_cons.mp hm with he | hm2
        · injection he with hk hv
          exact absurd hv (hnd child)
        · exact Or.inr (Leaf.here hm2 hnd)
    | nest hm hl =>
        rcases List.mem_cons.mp hm with he | hm2
        · injection he with hk hv
          injection hv with hd2
          exact Or.inl ⟨_, by rw [hk], hd2 ▸ hl⟩
        · exact Or.inr (Leaf.nest hm2 hl)
  · intro h
    rcases h with ⟨p', hp, hl⟩ | h
    · subst hp
      exact Leaf.nest (List.mem_cons_self _ _) hl
    · exact leaf_cons_of h

theorem leaf_cons_val_iff (k : String) (v0 : Value)
    (hnd : ∀ d, v0 ≠ Value.doc d) (rest : List (String × Value))
    (p : List String) (v : Value) :
    Leaf ((k, v0) :: rest) p v ↔ (p = [k] ∧ v = v0) ∨ Leaf rest p v := by
  constructor
  · intro h
    cases h with
    | here hm hnd2 =>
        rcases List.mem_cons.mp hm with he | hm2
        · injection he with hk hv
          exact Or.inl ⟨by rw [hk], hv⟩
        · exact Or.inr (Leaf.here hm2 hnd2)
    | nest hm hl =>
        rcases List.mem_cons.mp hm with he | hm2
        · injection he with hk hv
          exact absurd hv.symm (hnd _)
        · exact Or.inr (Leaf.nest hm2 hl)
  · intro h
    rcases h with ⟨hp, hv⟩ | h
    · subst hp
      subst hv
      exact Leaf.here (List.mem_cons_self _ _) hnd
    · exact leaf_cons_of h

theorem flatmap_mem_iff (m : List (String × Value)) (pre key : String)
    (v : Value) :
    (key, v) ∈ flatmap pre m
      ↔ ∃ p, Leaf m p v ∧ isfieldtype v = true ∧ key = pre ++ dotJoin p := by
  match m with
  | [] =>
      simp only [flatmap, List.not_mem_nil, false_iff, not_exists]
      intro p h
      exact absurd h.1 (leaf_nil p v)
  | (k, Value.doc child) :: rest =>
      have ihc := fun (key : String) (v : Value) =>
        flatmap_mem_iff child "" key v
      have ihr := fun (key : String) (v : Value) =>
        flatmap_mem_iff rest pre key v
      constructor
      · intro h
        rw [flatmap] at h
        rcases List.mem_append.mp h with h | h
        · rcases List.mem_map.mp h with ⟨⟨nk, nv⟩, hmem, heq⟩
          injection heq with hek hev
          obtain ⟨p', hl, hf, hkey⟩ := (ihc nk nv).mp hmem
          subst hev
          refine ⟨k :: p',
            (leaf_cons_doc_iff k child rest _ _).mpr (Or.inl ⟨p', rfl, hl⟩),
            hf, ?_⟩
          have hpne : p' ≠ [] := leaf_ne_nil hl
          have hkey2 : nk = dotJoin p' := hkey
          rw [← hek, dotJoin_cons k p' hpne, hkey2]
          simp [String.append_assoc]
        · obtain ⟨p, hl, hf, hkey⟩ := (ihr key v).mp h
          exact ⟨p, (leaf_cons_doc_iff k child rest p v).mpr (Or.inr hl),
            hf, hkey⟩
      · rintro ⟨p, hl, hf, hkey⟩
        rcases (leaf_cons_doc_iff k child rest p v).mp hl with ⟨p', hp, hl2⟩ | hl2
        · subst hp
          rw [flatmap]
          apply List.mem_append.mpr
          left
          apply List.mem_map.mpr
          refine ⟨(dotJoin p', v), (ihc _ _).mpr ⟨p', hl2, hf, rfl⟩, ?_⟩
          have hpne : p' ≠ [] := leaf_ne_nil hl2
          rw [hkey, dotJoin_cons k p' hpne]
          simp [String.append_assoc]
        · rw [flatmap]
          apply List.mem_append.mpr
          right
          exact (ihr key v).mpr ⟨p, hl2, hf, hkey⟩
  | (k, Value.str s) :: rest =>
      have ihr := fun (key : String) (v : Value) =>
        flatmap_mem_iff rest pre key v
      constructor
      · intro h
        rw [flatmap] at h
        · simp only [isfieldtype, if_true, List.mem_append,
            List.mem_singleton] at h
          rcases h with he | h
          · injection he with hek hev
            subst hev
            exact ⟨[k], Leaf.here (List.mem_cons_self _ _)
              (fun d hc => by simp at hc), rfl, hek⟩
          · obtain ⟨p, hl, hf, hkey⟩ := (ihr key v).mp h
            exact ⟨p, leaf_cons_of hl, hf, hkey⟩
        · intro child hc
          simp at hc
      · rintro ⟨p, hl, hf, hkey⟩
        rcases (leaf_cons_val_iff k (Value.str s)
            (fun d hc => by simp at hc) rest p v).mp hl with
          ⟨hp, hv⟩ | hl2
        · subst hp
          subst hv
          rw [flatmap]
          · simp only [isfieldtype, if_true, List.mem_append,
              List.mem_singleton]
            left
            rw [hkey]
            rfl
          · intro child hc
            simp at hc
        · rw [flatmap]
          · simp only [isfieldtype, if_true, List.mem_append,
              List.mem_singleton]
            right
            exact (ihr key v).mpr ⟨p, hl2, hf, hkey⟩
          · intro child hc
            simp at hc
  | (k, Value.int i) :: rest =>
      have ihr := fun (key : String) (v : Value) =>
        flatmap_mem_iff rest pre key v
      constructor
      · intro h
        rw [flatmap] at h
        · simp only [isfieldtype, if_true, List.mem_append,
            List.mem_singleton] at h
          rcases h with he | h
          · injection he with hek hev
            subst hev
            exact ⟨[k], Leaf.here (List.mem_cons_self _ _)
              (fun d hc => by simp at hc), rfl, hek⟩
          · obtain ⟨p, hl, hf, hkey⟩ := (ihr key v).mp h
            exact ⟨p, leaf_cons_of hl, hf, hkey⟩
        · intro child hc
          simp at hc
      · rintro ⟨p, hl, hf, hkey⟩
        rcases (leaf_cons_val_iff k (Value.int i)
            (fun d hc => by simp at hc) rest p v).mp hl with
          ⟨hp, hv⟩ | hl2
        · subst hp
          subst hv
          rw [flatmap]
          · simp only [isfieldtype, if_true, List.mem_append,
              List.mem_singleton]
            left
            rw [hkey]
            rfl
          · intro child hc
            simp at hc
        · rw [flatmap]
          · simp only [isfieldtype, if_true, List.mem_append,
              List.mem_singleton]
            right
            exact (ihr key v).mpr ⟨p, hl2, hf, hkey⟩
          · intro child hc
            simp at hc
  | (k, Value.float b) :: rest =>
      have ihr := fun (key : String) (v : Value) =>
        flatmap_mem_iff rest pre key v
      constructor
      · intro h
        rw [flatmap] at h
        · simp only [isfieldtype, if_true, List.mem_append,
            List.mem_singleton] at h
          rcases h with he | h
          · injection he with hek hev
            subst hev
            exact ⟨[k], Leaf.here (List.mem_cons_self _ _)
              (fun d hc => by simp at hc), rfl, hek⟩
          · obtain ⟨p, hl, hf, hkey⟩ := (ihr key v).mp h
            exact ⟨p, leaf_cons_of hl, hf, hkey⟩
        · intro child hc
          simp at hc
      · rintro ⟨p, hl, hf, hkey⟩
        rcases (leaf_cons_val_iff k (Value.float b)
            (fun d hc => by simp at hc) rest p v).mp hl with
          ⟨hp, hv⟩ | hl2
        · subst hp
          subst hv
          rw [flatmap]
          · simp only [isfieldtype, if_true, List.mem_append,
              List.mem_singleton]
            left
            rw [hkey]
            rfl
          · intro child hc
            simp at hc
        · rw [flatmap]
          · simp only [isfieldtype, if_true, List.mem_append,
              List.mem_singleton]
            right
            exact (ihr key v).mpr ⟨p, hl2, hf, hkey⟩
          · intro child hc
            simp at hc
  | (k, Value.bool b) :: rest =>
      have ihr := fun (key : String) (v : Value) =>
        flatmap_mem_iff rest pre key v
      constructor
      · intro h
        rw [flatmap] at h
        · simp only [isfieldtype, if_true, List.mem_append,
            List.mem_singleton] at h
          rcases h with he | h
          · injection he with hek hev
            subst hev
            exact ⟨[k], Leaf.here (List.mem_cons_self _ _)
              (fun d hc => by simp at hc), rfl, hek⟩
          · obtain ⟨p, hl, hf, hkey⟩ := (ihr key v).mp h
            exact ⟨p, leaf_cons_of hl, hf, hkey⟩
        · intro child hc
          simp at hc
      · rintro ⟨p, hl, hf, hkey⟩
        rcases (leaf_cons_val_iff k (Value.bool b)
            (fun d hc => by simp at hc) rest p v).mp hl with
          ⟨hp, hv⟩ | hl2
        · subst hp
          subst hv
          rw [flatmap]
          · simp only [isfieldtype, if_true, List.mem_append,
              List.mem_singleton]
            left
            rw [hkey]
            rfl
          · intro child hc
            simp at hc
        · rw [flatmap]
          · simp only [isfieldtype, if_true, List.mem_append,
              List.mem_singleton]
            right
            exact (ihr key v).mpr ⟨p, hl2, hf, hkey⟩
          · intro child hc
            simp at hc
  | (k, Value.time t) :: rest =>
      have ihr := fun (key : String) (v : Value) =>
        flatmap_mem_iff rest pre key v
      constructor
      · intro h
        rw [flatmap] at h
        · simp only [isfieldtype, if_false, List.nil_append] at h
          obtain ⟨p, hl, hf, hkey⟩ := (ihr key v).mp h
          exact ⟨p, leaf_cons_of hl, hf, hkey⟩
        · intro child hc
          simp at hc
      · rintro ⟨p, hl, hf, hkey⟩
        rcases (leaf_cons_val_iff k (Value.time t)
            (fun d hc => by simp at hc) rest p v).mp hl with
          ⟨hp, hv⟩ | hl2
        · subst hv
          simp [isfieldtype] at hf
        · rw [flatmap]
          · simp only [isfieldtype, if_false, List.nil_append]
            exact (ihr key v).mpr ⟨p, hl2, hf, hkey⟩
          · intro child hc
            simp at hc
  | (k, Value.mts ts) :: rest =>
      have ihr := fun (key : String) (v : Value) =>
        flatmap_mem_iff rest pre key v
      constructor
      · intro h
        rw [flatmap] at h
        · simp only [isfieldtype, if_false, List.nil_append] at h
          obtain ⟨p, hl, hf, hkey⟩ := (ihr key v).mp h
          exact ⟨p, leaf_cons_of hl, hf, hkey⟩
        · intro child hc
          simp at hc
      · rintro ⟨p, hl, hf, hkey⟩
        rcases (leaf_cons_val_iff k (Value.mts ts)
            (fun d hc => by simp at hc) rest p v).mp hl with
          ⟨hp, hv⟩ | hl2
        · subst hv
          simp [isfieldtype] at hf
        · rw [flatmap]
          · simp only [isfieldtype, if_false, List.nil_append]
            exact (ihr key v).mpr ⟨p, hl2, hf, hkey⟩
          · intro child hc
            simp at hc
  | (k, Value.arr l) :: rest =>
      have ihr := fun (key : String) (v : Value) =>
        flatmap_mem_iff rest pre key v
      constructor
      · intro h
        rw [flatmap] at h
        · simp only [isfieldtype, if_false, List.nil_append] at h
          obtain ⟨p, hl, hf, hkey⟩ := (ihr key v).mp h
          exact ⟨p, leaf_cons_of hl, hf, hkey⟩
        · intro child hc
          simp at hc
      · rintro ⟨p, hl, hf, hkey⟩
        rcases (leaf_cons_val_iff k (Value.arr l)
            (fun d hc => by simp at hc) rest p v).mp hl with
          ⟨hp, hv⟩ | hl2
        · subst hv
          simp [isfieldtype] at hf
        · rw [flatmap]
          · simp only [isfieldtype, if_false, List.nil_append]
            exact (ihr key v).mpr ⟨p, hl2, hf, hkey⟩
          · intro child hc
            simp at hc
  | (k, Value.null) :: rest =>
      have ihr := fun (key : String) (v : Value) =>
        flatmap_mem_iff rest pre key v
      constructor
      · intro h
        rw [flatmap] at h
        · simp only [isfieldtype, if_false, List.nil_append] at h
          obtain ⟨p, hl, hf, hkey⟩ := (ihr key v).mp h
          exact ⟨p, leaf_cons_of hl, hf, hkey⟩
        · intro child hc
          simp at hc
      · rintro ⟨p, hl, hf, hkey⟩
        rcases (leaf_cons_val_iff k (Value.null)
            (fun d hc => by simp at hc) rest p v).mp hl with
          ⟨hp, hv⟩ | hl2
        · subst hv
          simp [isfieldtype] at hf
        · rw [flatmap]
          · simp only [isfieldtype, if_false, List.nil_append]
            exact (ihr key v).mpr ⟨p, hl2, hf, hkey⟩
          · intro child hc
            simp at hc
  | (k, Value.other) :: rest =>
      have ihr := fun (key : String) (v : Value) =>
        flatmap_mem_iff rest pre key v
      constructor
      · intro h
        rw [flatmap] at h
        · simp only [isfieldtype, if_false, List.nil_append] at h
          obtain ⟨p, hl, hf, hkey⟩ := (ihr key v).mp h
          exact ⟨p, leaf_cons_of hl, hf, hkey⟩
        · intro child hc
          simp at hc
      · rintro ⟨p, hl, hf, hkey⟩
        rcases (leaf_cons_val_iff k (Value.other)
            (fun d hc => by simp at hc) rest p v).mp hl with
          ⟨hp, hv⟩ | hl2
        · subst hv
          simp [isfieldtype] at hf
        · rw [flatmap]
          · simp only [isfieldtype, if_false, List.nil_append]
            exact (ihr key v).mpr ⟨p, hl2, hf, hkey⟩
          · intro child hc
            simp at hc

theorem flatmap_fieldtype (pre : String) (m : List (String × Value)) :
    ∀ kv ∈ flatmap pre m, isfieldtype kv.2 = true := by
  intro kv h
  obtain ⟨p, _, hf, _⟩ := (flatmap_mem_iff m pre kv.1 kv.2).mp h
  exact hf

theorem flatmap_flat_id (l : List (String × Value)) :
    (∀ kv ∈ l, isfieldtype kv.2 = true) → flatmap "" l = l := by
  induction l with
  | nil =>
      intro _
      rw [flatmap]
  | cons hd tl ih =>
      intro h
      obtain ⟨k, v⟩ := hd
      have hv : isfieldtype v = true := h (k, v) (List.mem_cons_self _ _)
      have htl := ih (fun kv hkv => h kv (List.mem_cons_of_mem _ hkv))
      cases v with
      | doc d => simp [isfieldtype] at hv
      | time t => simp [isfieldtype] at hv
      | mts ts => simp [isfieldtype] at hv
      | arr a => simp [isfieldtype] at hv
      | null => simp [isfieldtype] at hv
      | other => simp [isfieldtype] at hv
      | str s =>
          rw [flatmap]
          · simp only [isfieldtype, if_true, List.singleton_append]
            rw [htl]
            rfl
          · intro child hc
            simp at hc
      | int i =>
          rw [flatmap]
          · simp only [isfieldtype, if_true, List.singleton_append]
            rw [htl]
            rfl
          · intro child hc
            simp at hc
      | float b =>
          rw [flatmap]
          · simp only [isfieldtype, if_true, List.singleton_append]
            rw [htl]
            rfl
          · intro child hc
            simp at hc
      | bool b =>
          rw [flatmap]
          · simp only [isfieldtype, if_true, List.singleton_append]
            rw [htl]
            rfl
          · intro child hc
            simp at hc

theorem flatmap_idem (m : List (String × Value)) :
    flatmap "" (flatmap "" m) = flatmap "" m :=
  flatmap_flat_id _ (flatmap_fieldtype "" m)

/-- C8: an entry of `flatmap` is exactly a scalar leaf of the document
whose value satisfies `isfieldtype`, keyed by the prefix followed by the
dot-joined path of keys — all other leaves are dropped; consequently
flattening an already-flat map changes nothing, so `flatmap` with empty
prefix is idempotent. -/
theorem C8_flatmap_exact_leaves_and_idempotent :
    (∀ (pre : String) (m : List (String × Value)) (key : String) (v : Value),
        (key, v) ∈ flatmap pre m
          ↔ ∃ p, Leaf m p v ∧ isfieldtype v = true ∧ key = pre ++ dotJoin p)
    ∧ (∀ m : List (String × Value), flatmap "" (flatmap "" m) = flatmap "" m) :=
  ⟨fun pre m key v => flatmap_mem_iff m pre key v, flatmap_idem⟩

/-- C8 witness: the nested leaf `a.b` is emitted under its dotted key. -/
theorem C8_witness :
    ("a.b", Value.int 3) ∈ flatmap "" [("a", Value.doc [("b", Value.int 3)])] :=
  (C8_flatmap_exact_leaves_and_idempotent.1 "" _ "a.b" (Value.int 3)).mpr
    ⟨["a", "b"],
      Leaf.nest (List.mem_cons_self _ _)
        (Leaf.here (List.mem_cons_self _ _) (fun d hc => by simp at hc)),
      rfl, rfl⟩

end MFlux
